import Mathlib

/-!
Verification development for the `typeddna` repository (src/src/firenoo/dna/dna.cpp).

The development shallowly embeds the buffer class `CharDna`, the fixed-width
view classes `Int32Dna` / `Long64Dna`, and the file codec
(`write_int32` / `write_int64` / `read_int32` / `read_int64` /
`serialize` / `deserialize`) as executable Lean functions over `Nat`.

Modelling conventions:
* A C++ `char` cell is modelled as a `Nat` below 256 (writes store the low
  byte, `v % 256`, matching `static_cast<char>`).  `m_data` is modelled as a
  total function `Nat → Nat`; indices at or beyond the allocated capacity are
  meaningless (reading them is undefined behaviour in the C++ source, the
  model returns 0 there) and no theorem below depends on them.
* `uint_fast32_t` and `uint_fast64_t` are 64-bit on the mainstream LP64
  targets the file is written for; arithmetic on them is modelled on `Nat`
  with explicit `% 2^64` where overflow can occur.
* The byte-assembly loops of `read_int32` / `read_int64` OR promoted `int`
  values into a 64-bit accumulator.  The embedding reproduces the de-facto
  behaviour of that code on the mainstream targets: a byte shifted into bit
  positions 24..31 of a 32-bit `int` sign-extends when ORed into the 64-bit
  accumulator (`sext32`), and shift counts of 32 or more on a 32-bit `int`
  are taken modulo 32, so bytes 4..7 of `read_int64` are assembled exactly
  like a second 32-bit read.
-/

/-- Buffer state of class `CharDna` (dna.cpp:25-139): byte storage `m_data`,
allocated capacity `m_len`, seed `m_seed`, and logical length `m_ptr`. -/
structure CharDna where
  data : Nat → Nat
  m_len : Nat
  m_seed : Nat
  m_ptr : Nat

/-- Embeds `CharDna::realloc` (dna.cpp:33-49): if `newLen < m_ptr` do nothing;
otherwise copy the first `m_ptr` bytes into a fresh buffer, zero-fill the
rest (`memset(newBuf + m_ptr, 0, newLen - m_ptr)`), and set `m_len = newLen`. -/
def CharDna.realloc (d : CharDna) (newLen : Nat) : CharDna :=
  if newLen < d.m_ptr then d
  else { d with m_len := newLen, data := fun i => if i < d.m_ptr then d.data i else 0 }

/-- Embeds the constructor `CharDna(seed, init_len)` (dna.cpp:52-59):
capacity `init_len`, length 0, storage zero-filled by `memset`. -/
def CharDna.create (seed init_len : Nat) : CharDna :=
  { data := fun _ => 0, m_len := init_len, m_seed := seed, m_ptr := 0 }

/-- Embeds the constructor `CharDna(seed, init_len, src)` (dna.cpp:61-68):
capacity = length = `init_len`, the first `init_len` bytes `memcpy`-ed from
`src` (stored as `char`s, hence the `% 256`). -/
def CharDna.fromSource (seed init_len : Nat) (src : Nat → Nat) : CharDna :=
  { data := fun i => if i < init_len then src i % 256 else 0
    m_len := init_len, m_seed := seed, m_ptr := init_len }

/-- Embeds `CharDna::set_char` (dna.cpp:93-104): bump `m_ptr` to `offset + 1`
when writing at or past the current length, grow to `m_ptr * 2` when the new
length exceeds the capacity, then store the low byte of `newData`. -/
def CharDna.set_char (d : CharDna) (offset newData : Nat) : CharDna :=
  let newPtr := if d.m_ptr ≤ offset then offset + 1 else d.m_ptr
  let grown :=
    if d.m_len < newPtr then CharDna.realloc { d with m_ptr := newPtr } (newPtr * 2)
    else { d with m_ptr := newPtr }
  { grown with data := fun i => if i = offset then newData % 256 else grown.data i }

/-- Embeds `CharDna::append_char` (dna.cpp:110-113): `set_char(m_ptr, newData)`. -/
def CharDna.append_char (d : CharDna) (newData : Nat) : CharDna :=
  d.set_char d.m_ptr newData

/-- Embeds `CharDna::char_data` (dna.cpp:115-118). -/
def CharDna.char_data (d : CharDna) (offset : Nat) : Nat := d.data offset

/-- Embeds `CharDna::capacity` (dna.cpp:120-123). -/
def CharDna.capacity (d : CharDna) : Nat := d.m_len

/-- Embeds `CharDna::len` (dna.cpp:125-128). -/
def CharDna.len (d : CharDna) : Nat := d.m_ptr

/-- Embeds `CharDna::seed` (dna.cpp:135-138). -/
def CharDna.seed (d : CharDna) : Nat := d.m_seed

/-- Embeds `Int32Dna::align` (dna.cpp:152-157):
`offset / 4 + ((offset % 4 + 3) / 4)` applied to the wrapped buffer's length.
The view classes hold no state of their own beyond the wrapped buffer, so
they are modelled as functions on `CharDna`. -/
def Int32Dna.align (d : CharDna) : Nat :=
  d.m_ptr / 4 + (d.m_ptr % 4 + 3) / 4

/-- Embeds `Int32Dna::set_int` (dna.cpp:169-176): `offset *= 4`, then four
`set_char` calls storing successively shifted-down bytes of `newData`. -/
def Int32Dna.set_int (d : CharDna) (offset newData : Nat) : CharDna :=
  let o := offset * 4
  ((((d.set_char o newData).set_char (o + 1) (newData / 2 ^ 8)).set_char
      (o + 2) (newData / 2 ^ 16)).set_char (o + 3) (newData / 2 ^ 24))

/-- Embeds `Int32Dna::append_int` (dna.cpp:182-185): `set_int(align(), newData)`. -/
def Int32Dna.append_int (d : CharDna) (newData : Nat) : CharDna :=
  Int32Dna.set_int d (Int32Dna.align d) newData

/-- Sign extension of a stored byte: `char_data` returns a signed `char`, and
`data |= c` converts it to the 64-bit unsigned accumulator type, so a byte of
128 or more contributes its value plus `2^64 - 256`. -/
def sextByte (b : Nat) : Nat := if b < 128 then b else b + (2 ^ 64 - 256)

/-- Embeds `Int32Dna::int_data` (dna.cpp:192-201) exactly as written:
`offset *= 4` and then each of the four iterations evaluates
`char_data(offset * 4)` — the same byte at `16 * offset` every time — with
`data <<= 8; data |= ...` on the 64-bit accumulator. -/
def Int32Dna.int_data (d : CharDna) (offset : Nat) : Nat :=
  let b := sextByte (d.char_data (offset * 4 * 4))
  let s1 := 0 * 256 % 2 ^ 64 ||| b
  let s2 := s1 * 256 % 2 ^ 64 ||| b
  let s3 := s2 * 256 % 2 ^ 64 ||| b
  s3 * 256 % 2 ^ 64 ||| b

/-- Embeds `Long64Dna::align` (dna.cpp:215-220):
`offset / 8 + (offset % 8 + 7) / 8`. -/
def Long64Dna.align (d : CharDna) : Nat :=
  d.m_ptr / 8 + (d.m_ptr % 8 + 7) / 8

/-- Embeds `Long64Dna::set_long` (dna.cpp:233-240): `offset *= 8`, then eight
`set_char` calls storing successively shifted-down bytes of `newData`. -/
def Long64Dna.set_long (d : CharDna) (offset newData : Nat) : CharDna :=
  let o := offset * 8
  ((((((((d.set_char o newData).set_char (o + 1) (newData / 2 ^ 8)).set_char
      (o + 2) (newData / 2 ^ 16)).set_char (o + 3) (newData / 2 ^ 24)).set_char
      (o + 4) (newData / 2 ^ 32)).set_char (o + 5) (newData / 2 ^ 40)).set_char
      (o + 6) (newData / 2 ^ 48)).set_char (o + 7) (newData / 2 ^ 56))

/-- Embeds `Long64Dna::append_long` (dna.cpp:246-249): `set_long(align(), newData)`. -/
def Long64Dna.append_long (d : CharDna) (newData : Nat) : CharDna :=
  Long64Dna.set_long d (Long64Dna.align d) newData

/-- Embeds `Long64Dna::long_data` (dna.cpp:256-265) exactly as written:
`offset *= 8` and then each of the eight iterations evaluates
`char_data(offset * 4)` — the same byte at `32 * offset` every time. -/
def Long64Dna.long_data (d : CharDna) (offset : Nat) : Nat :=
  let b := sextByte (d.char_data (offset * 8 * 4))
  let s1 := 0 * 256 % 2 ^ 64 ||| b
  let s2 := s1 * 256 % 2 ^ 64 ||| b
  let s3 := s2 * 256 % 2 ^ 64 ||| b
  let s4 := s3 * 256 % 2 ^ 64 ||| b
  let s5 := s4 * 256 % 2 ^ 64 ||| b
  let s6 := s5 * 256 % 2 ^ 64 ||| b
  let s7 := s6 * 256 % 2 ^ 64 ||| b
  s7 * 256 % 2 ^ 64 ||| b

/-! Basic facts about `set_char`. -/

theorem CharDna.set_char_ptr (d : CharDna) (offset v : Nat) :
    (d.set_char offset v).m_ptr = if d.m_ptr ≤ offset then offset + 1 else d.m_ptr := by
  simp only [CharDna.set_char, CharDna.realloc]
  split_ifs <;> simp_all

theorem CharDna.set_char_ptr_of_ge (d : CharDna) (offset v : Nat) (h : d.m_ptr ≤ offset) :
    (d.set_char offset v).m_ptr = offset + 1 := by
  rw [CharDna.set_char_ptr, if_pos h]

theorem CharDna.set_char_data_at (d : CharDna) (offset v : Nat) :
    (d.set_char offset v).data offset = v % 256 := by
  simp only [CharDna.set_char, CharDna.realloc]
  split_ifs <;> simp_all

theorem CharDna.set_char_data_ne (d : CharDna) (offset v i : Nat)
    (hne : i ≠ offset) (hlt : i < d.m_ptr ∨ i ≤ offset) :
    (d.set_char offset v).data i = d.data i := by
  simp only [CharDna.set_char, CharDna.realloc]
  split_ifs <;> simp_all <;> omega

theorem CharDna.set_char_len_mono (d : CharDna) (offset v : Nat) :
    d.m_len ≤ (d.set_char offset v).m_len := by
  simp only [CharDna.set_char, CharDna.realloc]
  split_ifs <;> simp_all <;> omega

theorem CharDna.set_char_ptr_le_len (d : CharDna) (offset v : Nat)
    (h : d.m_ptr ≤ d.m_len) :
    (d.set_char offset v).m_ptr ≤ (d.set_char offset v).m_len := by
  simp only [CharDna.set_char, CharDna.realloc]
  split_ifs <;> simp_all

/-! Buffer invariants: zero-fill of the slack region and length/capacity. -/

/-- Bytes in the slack region `[m_ptr, m_len)` are zero. -/
def ZeroPad (d : CharDna) : Prop :=
  ∀ i, d.m_ptr ≤ i → i < d.m_len → d.data i = 0

/-- Internal invariant: the logical length never exceeds the capacity and the
slack region is zero-filled. -/
def BufInv (d : CharDna) : Prop :=
  d.m_ptr ≤ d.m_len ∧ ZeroPad d

/-- Buffer states reachable through the operations the spec describes:
the two constructors, `set_char`, and `append_char`. -/
inductive Reachable : CharDna → Prop
  | create (seed init_len : Nat) : Reachable (CharDna.create seed init_len)
  | fromSource (seed init_len : Nat) (src : Nat → Nat) :
      Reachable (CharDna.fromSource seed init_len src)
  | set_char (d : CharDna) (offset v : Nat) : Reachable d → Reachable (d.set_char offset v)
  | append_char (d : CharDna) (v : Nat) : Reachable d → Reachable (d.append_char v)

theorem BufInv.create (seed init_len : Nat) : BufInv (CharDna.create seed init_len) := by
  constructor
  · simp [CharDna.create]
  · intro i _ _
    simp [CharDna.create]

theorem BufInv.fromSource (seed init_len : Nat) (src : Nat → Nat) :
    BufInv (CharDna.fromSource seed init_len src) := by
  constructor
  · simp [CharDna.fromSource]
  · intro i hi hi'
    simp only [CharDna.fromSource] at hi hi' ⊢
    omega

theorem BufInv.set_char (d : CharDna) (offset v : Nat) (h : BufInv d) :
    BufInv (d.set_char offset v) := by
  obtain ⟨hle, hzero⟩ := h
  refine ⟨CharDna.set_char_ptr_le_len d offset v hle, ?_⟩
  intro i hi hi'
  simp only [CharDna.set_char, CharDna.realloc] at hi hi' ⊢
  split_ifs at hi hi' ⊢ <;> simp_all <;> first | omega | (apply hzero <;> omega)

theorem BufInv.reachable (d : CharDna) (h : Reachable d) : BufInv d := by
  induction h with
  | create seed init_len => exact BufInv.create seed init_len
  | fromSource seed init_len src => exact BufInv.fromSource seed init_len src
  | set_char d offset v _ ih => exact BufInv.set_char d offset v ih
  | append_char d v _ ih => exact BufInv.set_char d d.m_ptr v ih

/-! Sequences of byte-level operations, for the capacity-monotonicity claim. -/

/-- A byte-level buffer operation: `setByte` or `appendByte`. -/
inductive BufOp
  | setB (offset v : Nat)
  | appendB (v : Nat)

def applyOp (d : CharDna) : BufOp → CharDna
  | .setB offset v => d.set_char offset v
  | .appendB v => d.append_char v

def applyOps (d : CharDna) (ops : List BufOp) : CharDna :=
  ops.foldl applyOp d

theorem applyOps_capacity_mono (d : CharDna) (ops : List BufOp) :
    d.m_len ≤ (applyOps d ops).m_len := by
  induction ops generalizing d with
  | nil => simp [applyOps]
  | cons op tl ih =>
    have h1 : d.m_len ≤ (applyOp d op).m_len := by
      cases op with
      | setB offset v => exact CharDna.set_char_len_mono d offset v
      | appendB v => exact CharDna.set_char_len_mono d d.m_ptr v
    calc d.m_len ≤ (applyOp d op).m_len := h1
      _ ≤ (applyOps (applyOp d op) tl).m_len := ih (applyOp d op)
      _ = (applyOps d (op :: tl)).m_len := rfl

/-! Byte-append sequences, for the append/read round-trip claim. -/

def appendAll (d : CharDna) (vs : List Nat) : CharDna :=
  vs.foldl CharDna.append_char d

theorem appendAll_spec (vs : List Nat) (d : CharDna) :
    (appendAll d vs).m_ptr = d.m_ptr + vs.length
    ∧ (∀ i, i < d.m_ptr → (appendAll d vs).data i = d.data i)
    ∧ (∀ j, (hj : j < vs.length) →
        (appendAll d vs).data (d.m_ptr + j) = vs.get ⟨j, hj⟩ % 256) := by
  induction vs generalizing d with
  | nil => simp [appendAll]
  | cons v tl ih =>
    have hstep : appendAll d (v :: tl) = appendAll (d.append_char v) tl := rfl
    have hptr : (d.append_char v).m_ptr = d.m_ptr + 1 :=
      CharDna.set_char_ptr_of_ge d d.m_ptr v le_rfl
    obtain ⟨ih1, ih2, ih3⟩ := ih (d.append_char v)
    refine ⟨?_, ?_, ?_⟩
    · rw [hstep, ih1, hptr]
      simp [Nat.add_assoc, Nat.add_comm 1]
    · intro i hi
      rw [hstep, ih2 i (by omega)]
      exact CharDna.set_char_data_ne d d.m_ptr v i (by omega) (Or.inl hi)
    · intro j hj
      match j with
      | 0 =>
        have : (appendAll (d.append_char v) tl).data ((d.append_char v).m_ptr - 1)
            = (d.append_char v).data ((d.append_char v).m_ptr - 1) := by
          apply ih2
          omega
        rw [hstep]
        have h0 : d.m_ptr + 0 = (d.append_char v).m_ptr - 1 := by omega
        rw [h0, this]
        have : (d.append_char v).m_ptr - 1 = d.m_ptr := by omega
        rw [this]
        simpa using CharDna.set_char_data_at d d.m_ptr v
      | j + 1 =>
        rw [hstep]
        have h1 : d.m_ptr + (j + 1) = (d.append_char v).m_ptr + j := by omega
        rw [h1, ih3 j (by simpa using Nat.lt_of_succ_lt_succ hj)]
        rfl

/-! Alignment facts for the fixed-width views. -/

theorem Int32Dna.align32_ge (d : CharDna) : d.m_ptr ≤ 4 * Int32Dna.align d := by
  unfold Int32Dna.align
  omega

theorem Long64Dna.align64_ge (d : CharDna) : d.m_ptr ≤ 8 * Long64Dna.align d := by
  unfold Long64Dna.align
  omega

theorem Int32Dna.set_int_spec (d : CharDna) (a v : Nat) (h : d.m_ptr ≤ a * 4) :
    (Int32Dna.set_int d a v).m_ptr = a * 4 + 4
    ∧ (∀ i, i < 4 → (Int32Dna.set_int d a v).data (a * 4 + i) = v / 2 ^ (8 * i) % 256) := by
  set o := a * 4 with ho
  have e0 : (d.set_char o v).m_ptr = o + 1 := CharDna.set_char_ptr_of_ge d o v h
  set d1 := d.set_char o v with hd1
  have e1 : (d1.set_char (o + 1) (v / 2 ^ 8)).m_ptr = o + 2 := by
    rw [CharDna.set_char_ptr_of_ge _ _ _ (by omega)]
  set d2 := d1.set_char (o + 1) (v / 2 ^ 8) with hd2
  have e2 : (d2.set_char (o + 2) (v / 2 ^ 16)).m_ptr = o + 3 := by
    rw [CharDna.set_char_ptr_of_ge _ _ _ (by omega)]
  set d3 := d2.set_char (o + 2) (v / 2 ^ 16) with hd3
  have e3 : (d3.set_char (o + 3) (v / 2 ^ 24)).m_ptr = o + 4 := by
    rw [CharDna.set_char_ptr_of_ge _ _ _ (by omega)]
  set d4 := d3.set_char (o + 3) (v / 2 ^ 24) with hd4
  have hres : Int32Dna.set_int d a v = d4 := rfl
  refine ⟨by rw [hres, e3], ?_⟩
  intro i hi
  interval_cases i
  · rw [hres, hd4, hd3, hd2]
    rw [CharDna.set_char_data_ne _ _ _ _ (by omega) (Or.inr (by omega))]
    rw [CharDna.set_char_data_ne _ _ _ _ (by omega) (Or.inr (by omega))]
    rw [CharDna.set_char_data_ne _ _ _ _ (by omega) (Or.inr (by omega))]
    simpa using CharDna.set_char_data_at d o v
  · rw [hres, hd4, hd3]
    rw [CharDna.set_char_data_ne _ _ _ _ (by omega) (Or.inr (by omega))]
    rw [CharDna.set_char_data_ne _ _ _ _ (by omega) (Or.inr (by omega))]
    simpa using CharDna.set_char_data_at d1 (o + 1) (v / 2 ^ 8)
  · rw [hres, hd4]
    rw [CharDna.set_char_data_ne _ _ _ _ (by omega) (Or.inr (by omega))]
    simpa using CharDna.set_char_data_at d2 (o + 2) (v / 2 ^ 16)
  · rw [hres]
    simpa using CharDna.set_char_data_at d3 (o + 3) (v / 2 ^ 24)

theorem Long64Dna.set_long_spec (d : CharDna) (a v : Nat) (h : d.m_ptr ≤ a * 8) :
    (Long64Dna.set_long d a v).m_ptr = a * 8 + 8
    ∧ (∀ i, i < 8 → (Long64Dna.set_long d a v).data (a * 8 + i) = v / 2 ^ (8 * i) % 256) := by
  set o := a * 8 with ho
  set d1 := d.set_char o v with hd1
  set d2 := d1.set_char (o + 1) (v / 2 ^ 8) with hd2
  set d3 := d2.set_char (o + 2) (v / 2 ^ 16) with hd3
  set d4 := d3.set_char (o + 3) (v / 2 ^ 24) with hd4
  set d5 := d4.set_char (o + 4) (v / 2 ^ 32) with hd5
  set d6 := d5.set_char (o + 5) (v / 2 ^ 40) with hd6
  set d7 := d6.set_char (o + 6) (v / 2 ^ 48) with hd7
  set d8 := d7.set_char (o + 7) (v / 2 ^ 56) with hd8
  have e0 : d1.m_ptr = o + 1 := CharDna.set_char_ptr_of_ge d o v h
  have e1 : d2.m_ptr = o + 2 := CharDna.set_char_ptr_of_ge _ _ _ (by omega)
  have e2 : d3.m_ptr = o + 3 := CharDna.set_char_ptr_of_ge _ _ _ (by omega)
  have e3 : d4.m_ptr = o + 4 := CharDna.set_char_ptr_of_ge _ _ _ (by omega)
  have e4 : d5.m_ptr = o + 5 := CharDna.set_char_ptr_of_ge _ _ _ (by omega)
  have e5 : d6.m_ptr = o + 6 := CharDna.set_char_ptr_of_ge _ _ _ (by omega)
  have e6 : d7.m_ptr = o + 7 := CharDna.set_char_ptr_of_ge _ _ _ (by omega)
  have e7 : d8.m_ptr = o + 8 := CharDna.set_char_ptr_of_ge _ _ _ (by omega)
  have hres : Long64Dna.set_long d a v = d8 := rfl
  refine ⟨by rw [hres, e7], ?_⟩
  intro i hi
  have hkeep : ∀ (x : CharDna) (m w j : Nat), j < m →
      (x.set_char (o + m) w).data (o + j) = x.data (o + j) := by
    intro x m w j hj
    exact CharDna.set_char_data_ne _ _ _ _ (by omega) (Or.inr (by omega))
  interval_cases i
  · rw [hres, hd8, hd7, hd6, hd5, hd4, hd3, hd2]
    rw [hkeep _ _ _ 0 (by omega), hkeep _ _ _ 0 (by omega), hkeep _ _ _ 0 (by omega),
      hkeep _ _ _ 0 (by omega), hkeep _ _ _ 0 (by omega), hkeep _ _ _ 0 (by omega),
      hkeep _ _ _ 0 (by omega)]
    simpa using CharDna.set_char_data_at d o v
  · rw [hres, hd8, hd7, hd6, hd5, hd4, hd3]
    rw [hkeep _ _ _ 1 (by omega), hkeep _ _ _ 1 (by omega), hkeep _ _ _ 1 (by omega),
      hkeep _ _ _ 1 (by omega), hkeep _ _ _ 1 (by omega), hkeep _ _ _ 1 (by omega)]
    simpa using CharDna.set_char_data_at d1 (o + 1) (v / 2 ^ 8)
  · rw [hres, hd8, hd7, hd6, hd5, hd4]
    rw [hkeep _ _ _ 2 (by omega), hkeep _ _ _ 2 (by omega), hkeep _ _ _ 2 (by omega),
      hkeep _ _ _ 2 (by omega), hkeep _ _ _ 2 (by omega)]
    simpa using CharDna.set_char_data_at d2 (o + 2) (v / 2 ^ 16)
  · rw [hres, hd8, hd7, hd6, hd5]
    rw [hkeep _ _ _ 3 (by omega), hkeep _ _ _ 3 (by omega), hkeep _ _ _ 3 (by omega),
      hkeep _ _ _ 3 (by omega)]
    simpa using CharDna.set_char_data_at d3 (o + 3) (v / 2 ^ 24)
  · rw [hres, hd8, hd7, hd6]
    rw [hkeep _ _ _ 4 (by omega), hkeep _ _ _ 4 (by omega), hkeep _ _ _ 4 (by omega)]
    simpa using CharDna.set_char_data_at d4 (o + 4) (v / 2 ^ 32)
  · rw [hres, hd8, hd7]
    rw [hkeep _ _ _ 5 (by omega), hkeep _ _ _ 5 (by omega)]
    simpa using CharDna.set_char_data_at d5 (o + 5) (v / 2 ^ 40)
  · rw [hres, hd8]
    rw [hkeep _ _ _ 6 (by omega)]
    simpa using CharDna.set_char_data_at d6 (o + 6) (v / 2 ^ 48)
  · rw [hres]
    simpa using CharDna.set_char_data_at d7 (o + 7) (v / 2 ^ 56)

/-! The file codec (dna.cpp:489-619). -/

/-- Embeds the byte-emission loops of `write_int32` (dna.cpp:489-498) and
`write_int64` (dna.cpp:500-509): emit `n` bytes of `v`, least significant
first (`buf[i] = (char) in; in >>= 8`). -/
def writeBytes : Nat → Nat → List Nat
  | 0, _ => []
  | n + 1, v => v % 256 :: writeBytes n (v / 256)

/-- The `len()` bytes a buffer contributes to the stream
(`file.write(d->all_data(), dna_len)`, dna.cpp:614). -/
def payloadBytes (d : CharDna) : List Nat :=
  (List.range d.m_ptr).map d.data

/-- One record as written by the loop body of `serialize` (dna.cpp:606-615):
length, unit size (`fn_UNIT_SIZE = 16`), seed, typed-dna id (`fn_TYPEDDNA_ID
= 1`), the newline word, then the payload. -/
def serializeRec (d : CharDna) : List Nat :=
  writeBytes 4 d.m_ptr ++ writeBytes 4 16 ++ writeBytes 8 d.m_seed
    ++ writeBytes 4 1 ++ writeBytes 4 10 ++ payloadBytes d

/-- Embeds `serialize` (dna.cpp:596-619) for a successfully opened output
stream: the record count, then each record in order. -/
def serialize (ds : List CharDna) : List Nat :=
  writeBytes 4 ds.length ++ ds.flatMap serializeRec

/-- Input-stream state: the bytes not yet consumed, and whether a read has
already failed (`eofbit`/`failbit` set by a short `read`). -/
structure IStream where
  buf : List Nat
  failed : Bool

/-- Embeds `std::ifstream::read(buf, n)`: with the fail bits set nothing is
extracted and the destination keeps its previous (uninitialized) contents,
which the model resolves to zero bytes; a read past the end extracts what is
available, leaves the rest of the destination unwritten (again modelled as
zero), and sets the fail bits; a read of exactly the remaining bytes does
not set them. -/
def readN (s : IStream) (n : Nat) : List Nat × IStream :=
  if s.failed then (List.replicate n 0, s)
  else if n ≤ s.buf.length then (s.buf.take n, ⟨s.buf.drop n, false⟩)
  else (s.buf ++ List.replicate (n - s.buf.length) 0, ⟨[], true⟩)

/-- Sign extension of a 32-bit `int` bit pattern into the 64-bit accumulator:
the value `(buf[3] & 0xff) << 24` is a 32-bit `int`, negative when bit 31 is
set, and `result |= ...` converts it to the 64-bit unsigned type. -/
def sext32 (x : Nat) : Nat := if x < 2 ^ 31 then x else x + (2 ^ 64 - 2 ^ 32)

/-- The byte-assembly loop of `read_int32` (dna.cpp:519-522):
`result |= (buf[i] & 0xff) << (8 * i)` with `result` 64-bit and the shifted
operand a 32-bit `int`, hence the sign extension of the fourth byte. -/
def asInt32 (bs : List Nat) : Nat :=
  ((bs.getD 0 0 ||| bs.getD 1 0 * 2 ^ 8) ||| bs.getD 2 0 * 2 ^ 16)
    ||| sext32 (bs.getD 3 0 * 2 ^ 24)

/-- Embeds `read_int32` (dna.cpp:512-526). -/
def read_int32 (s : IStream) : Nat × IStream :=
  let p := readN s 4
  (asInt32 p.1, p.2)

/-- The byte-assembly loop of `read_int64` (dna.cpp:533-538): the shifted
operand is a 32-bit `int` and the shift counts for bytes 4..7 are 32..56,
which the mainstream targets take modulo 32, so the upper four bytes are
ORed in exactly like a second 32-bit read (OR is associative and
commutative, so the grouping below equals the loop's left-to-right one). -/
def asInt64 (bs : List Nat) : Nat :=
  asInt32 (bs.take 4) ||| asInt32 (bs.drop 4)

/-- Embeds `read_int64` (dna.cpp:528-541). -/
def read_int64 (s : IStream) : Nat × IStream :=
  let p := readN s 8
  (asInt64 p.1, p.2)

/-- The header-skip loop of `deserialize` (dna.cpp:570-573):
`while(read_int32(&file) != '\n')`.  `none` marks the case in which the
stream fails before a newline word is found: the C++ loop then never
terminates (every further `read_int32` extracts nothing and assembles the
uninitialized — modelled as zero — stack buffer, never equal to 10).  The
fuel argument only bounds the structural recursion; it is at least one
larger than the number of whole words left, so a terminating C++ iteration
never exhausts it (each recursive step consumes four buffered bytes). -/
def skipHeaderFuel : Nat → IStream → Option IStream
  | 0, _ => none
  | fuel + 1, s =>
    let p := read_int32 s
    if p.1 = 10 then some p.2
    else if p.2.failed then none
    else skipHeaderFuel fuel p.2

/-- The header-skip loop at its natural fuel. -/
def skipHeader (s : IStream) : Option IStream :=
  skipHeaderFuel (s.buf.length + 1) s

/-- The record loop of `deserialize` (dna.cpp:558-586), iterated `k` times
with `acc` the records already `emplace_back`-ed into the caller's vector:
read the length, check the unit-size word (else return 0 with the vector as
it stands), read the seed, skip header words to the newline, read the
payload, and abort with 0 if that read hit end of file.  `none` propagates
the non-terminating header scan.  `file.bad()` is never set by these
operations, so the `if(!file.bad())` guard always passes. -/
def deserializeLoop : Nat → IStream → List CharDna → Option (Nat × List CharDna)
  | 0, _, acc => some (1, acc)
  | k + 1, s, acc =>
    let p1 := read_int32 s
    let p2 := read_int32 p1.2
    if p2.1 ≠ 16 then some (0, acc)
    else
      let p3 := read_int64 p2.2
      match skipHeader p3.2 with
      | none => none
      | some s4 =>
        let p5 := readN s4 p1.1
        if p5.2.failed then some (0, acc)
        else
          deserializeLoop k p5.2
            (acc ++ [CharDna.fromSource p3.1 p1.1 (fun i => p5.1.getD i 0)])

/-- Embeds `deserialize` (dna.cpp:548-591) for a successfully opened input
stream whose caller passed an empty vector (as `main` does): read the record
count, then run the record loop.  `some (1, recs)` is the successful return,
`some (0, recs)` the error return (with `recs` the records already inserted
into the caller's vector), and `none` the non-terminating header scan. -/
def deserialize (bytes : List Nat) : Option (Nat × List CharDna) :=
  let p := read_int32 ⟨bytes, false⟩
  deserializeLoop p.1 p.2 []

/-! Facts about byte emission and byte assembly. -/

theorem writeBytes_length (n v : Nat) : (writeBytes n v).length = n := by
  induction n generalizing v with
  | zero => rfl
  | succ n ih => simp [writeBytes, ih]

/-- ORing a value into disjoint higher bit positions is addition. -/
theorem lor_mul_pow_eq_add {i b : Nat} (a : Nat) (hb : b < 2 ^ i) :
    b ||| a * 2 ^ i = a * 2 ^ i + b := by
  rw [Nat.lor_comm, Nat.mul_comm a (2 ^ i)]
  apply Nat.eq_of_testBit_eq
  intro j
  rw [Nat.testBit_lor, Nat.testBit_mul_pow_two_add a hb j, Nat.testBit_mul_pow_two]
  by_cases h : j < i
  · simp [h, Nat.not_le.mpr h]
  · have hbj : b < 2 ^ j :=
      lt_of_lt_of_le hb (Nat.pow_le_pow_right (by norm_num) (Nat.le_of_not_lt h))
    simp [h, Nat.le_of_not_lt h, Nat.testBit_lt_two_pow hbj]

theorem writeBytes_four (v : Nat) :
    writeBytes 4 v = [v % 256, v / 256 % 256, v / 256 / 256 % 256, v / 256 / 256 / 256 % 256] := by
  simp [writeBytes]

theorem asInt32_writeBytes (v : Nat) (hv : v < 2 ^ 31) :
    asInt32 (writeBytes 4 v) = v := by
  rw [writeBytes_four]
  simp only [asInt32, List.getD_cons_zero, List.getD_cons_succ]
  have hs : v / 256 / 256 / 256 % 256 * 2 ^ 24 < 2 ^ 31 := by omega
  simp only [sext32, if_pos hs]
  rw [lor_mul_pow_eq_add (i := 8) _ (by omega)]
  rw [lor_mul_pow_eq_add (i := 16) _ (by omega)]
  rw [lor_mul_pow_eq_add (i := 24) _ (by omega)]
  omega

theorem asInt32_zeros : asInt32 [0, 0, 0, 0] = 0 := by decide

theorem asInt64_writeBytes (v : Nat) (hv : v < 2 ^ 31) :
    asInt64 (writeBytes 8 v) = v := by
  have hsplit : writeBytes 8 v
      = writeBytes 4 v ++ [v / 2 ^ 32 % 256, v / 2 ^ 32 / 256 % 256,
          v / 2 ^ 32 / 256 / 256 % 256, v / 2 ^ 32 / 256 / 256 / 256 % 256] := by
    simp only [writeBytes, writeBytes_four]
    norm_num
    constructor
    · omega
    · constructor
      · omega
      · constructor <;> omega
  have hhi : v / 2 ^ 32 = 0 := by
    have : (2 : Nat) ^ 32 = 4294967296 := by norm_num
    rw [this]
    omega
  rw [hsplit, hhi]
  simp only [asInt64]
  rw [List.take_left' (writeBytes_length 4 v), List.drop_left' (writeBytes_length 4 v)]
  norm_num [asInt32_zeros, asInt32_writeBytes v hv]

/-! Stream-consumption lemmas. -/

theorem readN_exact (xs rest : List Nat) (n : Nat) (h : xs.length = n) :
    readN ⟨xs ++ rest, false⟩ n = (xs, ⟨rest, false⟩) := by
  subst h
  simp only [readN]
  rw [if_neg (by simp), if_pos (by simp)]
  rw [List.take_left' rfl, List.drop_left' rfl]

theorem read_int32_head (w rest : List Nat) (hw : w.length = 4) :
    read_int32 ⟨w ++ rest, false⟩ = (asInt32 w, ⟨rest, false⟩) := by
  simp only [read_int32, readN_exact w rest 4 hw]

theorem read_int64_head (w rest : List Nat) (hw : w.length = 8) :
    read_int64 ⟨w ++ rest, false⟩ = (asInt64 w, ⟨rest, false⟩) := by
  simp only [read_int64, readN_exact w rest 8 hw]

theorem read_int32_consumed (s : IStream) (h : (read_int32 s).2.failed = false) :
    s.failed = false ∧ 4 ≤ s.buf.length ∧ (read_int32 s).2.buf.length + 4 = s.buf.length := by
  by_cases hf : s.failed
  · exfalso
    simp [read_int32, readN, hf] at h
  · by_cases hl : 4 ≤ s.buf.length
    · simp only [read_int32, readN, hf]
      simp only [Bool.false_eq_true, if_false, if_pos hl]
      simp [List.length_drop]
      omega
    · exfalso
      simp [read_int32, readN, hf, hl] at h

theorem skipHeaderFuel_congr (f : Nat) : ∀ (g : Nat) (s : IStream),
    s.buf.length < f → s.buf.length < g → skipHeaderFuel f s = skipHeaderFuel g s := by
  induction f with
  | zero => intro g s hf hg; omega
  | succ f ih =>
    intro g s hf hg
    obtain ⟨g', rfl⟩ : ∃ g', g = g' + 1 := ⟨g - 1, by omega⟩
    simp only [skipHeaderFuel]
    by_cases h10 : (read_int32 s).1 = 10
    · simp [h10]
    · simp only [h10, if_false]
      by_cases hfail : (read_int32 s).2.failed
      · simp [hfail]
      · simp only [hfail, Bool.false_eq_true, if_false]
        have hc := read_int32_consumed s (by simpa using hfail)
        exact ih g' (read_int32 s).2 (by omega) (by omega)

theorem skipHeader_cons_ne (w rest : List Nat) (hw : w.length = 4) (hne : asInt32 w ≠ 10) :
    skipHeader ⟨w ++ rest, false⟩ = skipHeader ⟨rest, false⟩ := by
  show skipHeaderFuel ((w ++ rest).length + 1) ⟨w ++ rest, false⟩
      = skipHeaderFuel (rest.length + 1) ⟨rest, false⟩
  rw [show (w ++ rest).length + 1 = (rest.length + 4) + 1 by simp [hw]; omega]
  simp only [skipHeaderFuel]
  rw [read_int32_head w rest hw]
  simp only [hne, if_false, Bool.false_eq_true]
  exact skipHeaderFuel_congr (rest.length + 4) (rest.length + 1) ⟨rest, false⟩
    (show rest.length < rest.length + 4 by omega)
    (show rest.length < rest.length + 1 by omega)

theorem skipHeader_cons_eq (w rest : List Nat) (hw : w.length = 4) (heq : asInt32 w = 10) :
    skipHeader ⟨w ++ rest, false⟩ = some ⟨rest, false⟩ := by
  show skipHeaderFuel ((w ++ rest).length + 1) ⟨w ++ rest, false⟩ = some ⟨rest, false⟩
  rw [show (w ++ rest).length + 1 = (rest.length + 4) + 1 by simp [hw]; omega]
  simp only [skipHeaderFuel]
  rw [read_int32_head w rest hw]
  simp [heq]

theorem payloadBytes_length (d : CharDna) : (payloadBytes d).length = d.m_ptr := by
  simp [payloadBytes]

/-- The buffer `deserialize` reconstructs from the serialized form of `d`:
the payload bytes survive unchanged, while the seed comes back through
`write_int64` / `read_int64`. -/
def decodedBuf (d : CharDna) : CharDna :=
  CharDna.fromSource (asInt64 (writeBytes 8 d.m_seed)) d.m_ptr
    (fun i => (payloadBytes d).getD i 0)

/-- One iteration of the record loop over a well-formed record: the header
words are consumed, the payload is read exactly, and the reconstructed
buffer is appended to the vector. -/
theorem deserializeLoop_record (k : Nat) (acc : List CharDna)
    (wlen wunit wseed wid wnl pl rest : List Nat)
    (hlen4 : wlen.length = 4) (hunit4 : wunit.length = 4) (hseed8 : wseed.length = 8)
    (hid4 : wid.length = 4) (hnl4 : wnl.length = 4)
    (hunit : asInt32 wunit = 16) (hid : asInt32 wid ≠ 10) (hnl : asInt32 wnl = 10)
    (hplen : pl.length = asInt32 wlen) :
    deserializeLoop (k + 1) ⟨wlen ++ (wunit ++ (wseed ++ (wid ++ (wnl ++ (pl ++ rest))))), false⟩ acc
      = deserializeLoop k ⟨rest, false⟩
          (acc ++ [CharDna.fromSource (asInt64 wseed) (asInt32 wlen) (fun i => pl.getD i 0)]) := by
  simp only [deserializeLoop]
  rw [read_int32_head _ _ hlen4]
  dsimp only
  rw [read_int32_head _ _ hunit4]
  dsimp only
  rw [hunit]
  simp only [ne_eq, not_true_eq_false, if_false, ite_false]
  rw [read_int64_head _ _ hseed8]
  dsimp only
  rw [skipHeader_cons_ne _ _ hid4 hid, skipHeader_cons_eq _ _ hnl4 hnl]
  dsimp only
  rw [readN_exact _ _ _ hplen]
  dsimp only
  simp

theorem deserializeLoop_cons (d : CharDna) (hd : d.m_ptr < 2 ^ 31) (k : Nat)
    (rest : List Nat) (acc : List CharDna) :
    deserializeLoop (k + 1) ⟨serializeRec d ++ rest, false⟩ acc
      = deserializeLoop k ⟨rest, false⟩ (acc ++ [decodedBuf d]) := by
  have hassoc : serializeRec d ++ rest
      = writeBytes 4 d.m_ptr ++ (writeBytes 4 16 ++ (writeBytes 8 d.m_seed
          ++ (writeBytes 4 1 ++ (writeBytes 4 10 ++ (payloadBytes d ++ rest))))) := by
    simp [serializeRec, List.append_assoc]
  have h := deserializeLoop_record k acc (writeBytes 4 d.m_ptr) (writeBytes 4 16)
    (writeBytes 8 d.m_seed) (writeBytes 4 1) (writeBytes 4 10) (payloadBytes d) rest
    (writeBytes_length 4 d.m_ptr) (writeBytes_length 4 16) (writeBytes_length 8 d.m_seed)
    (writeBytes_length 4 1) (writeBytes_length 4 10)
    (asInt32_writeBytes 16 (by norm_num))
    (by rw [asInt32_writeBytes 1 (by norm_num)]; omega)
    (asInt32_writeBytes 10 (by norm_num))
    (by rw [asInt32_writeBytes d.m_ptr hd]; exact payloadBytes_length d)
  rw [hassoc, h, asInt32_writeBytes d.m_ptr hd]
  rfl

theorem deserializeLoop_consume (ds : List CharDna) (h : ∀ d ∈ ds, d.m_ptr < 2 ^ 31)
    (k : Nat) (rest : List Nat) (acc : List CharDna) :
    deserializeLoop (ds.length + k) ⟨ds.flatMap serializeRec ++ rest, false⟩ acc
      = deserializeLoop k ⟨rest, false⟩ (acc ++ ds.map decodedBuf) := by
  induction ds generalizing acc with
  | nil => simp
  | cons d tl ih =>
    have hlen : (d :: tl).length + k = (tl.length + k) + 1 := by simp; omega
    rw [hlen]
    have hflat : (d :: tl).flatMap serializeRec ++ rest
        = serializeRec d ++ (tl.flatMap serializeRec ++ rest) := by
      simp [List.flatMap_cons, List.append_assoc]
    rw [hflat]
    rw [deserializeLoop_cons d (h d (by simp)) _ _ acc]
    rw [ih (fun x hx => h x (by simp [hx])) (acc ++ [decodedBuf d])]
    simp

theorem deserialize_serialize (ds : List CharDna) (hn : ds.length < 2 ^ 31)
    (h : ∀ d ∈ ds, d.m_ptr < 2 ^ 31) :
    deserialize (serialize ds) = some (1, ds.map decodedBuf) := by
  have hser : serialize ds = writeBytes 4 ds.length ++ ds.flatMap serializeRec := rfl
  rw [hser]
  simp only [deserialize]
  rw [read_int32_head _ _ (writeBytes_length 4 ds.length)]
  dsimp only
  rw [asInt32_writeBytes ds.length hn]
  have hc := deserializeLoop_consume ds h 0 [] []
  simp only [Nat.add_zero, List.append_nil, List.nil_append] at hc
  rw [hc]
  simp [deserializeLoop]

/-- The deserialized buffer agrees with the original on seed, logical length,
and the first `length` bytes. -/
def MatchesBuf (out orig : CharDna) : Prop :=
  out.m_seed = orig.m_seed ∧ out.m_ptr = orig.m_ptr
    ∧ ∀ i, i < orig.m_ptr → out.data i = orig.data i

theorem payloadBytes_getD (d : CharDna) (i : Nat) (hi : i < d.m_ptr) :
    (payloadBytes d).getD i 0 = d.data i := by
  simp [payloadBytes, List.getD, hi]

theorem decodedBuf_matches (d : CharDna) (hs : d.m_seed < 2 ^ 31)
    (hwf : ∀ i, i < d.m_ptr → d.data i < 256) :
    MatchesBuf (decodedBuf d) d := by
  refine ⟨asInt64_writeBytes _ hs, rfl, ?_⟩
  intro i hi
  show (if i < d.m_ptr then (payloadBytes d).getD i 0 % 256 else 0) = d.data i
  rw [if_pos hi, payloadBytes_getD d i hi, Nat.mod_eq_of_lt (hwf i hi)]

theorem map_decodedBuf_matches (ds : List CharDna)
    (h : ∀ d ∈ ds, d.m_seed < 2 ^ 31 ∧ ∀ i, i < d.m_ptr → d.data i < 256) :
    List.Forall₂ MatchesBuf (ds.map decodedBuf) ds := by
  induction ds with
  | nil => simp
  | cons d tl ih =>
    simp only [List.map_cons, List.forall₂_cons]
    exact ⟨decodedBuf_matches d (h d (by simp)).1 (h d (by simp)).2,
      ih (fun x hx => h x (by simp [hx]))⟩

/-! Claim theorems. -/

/-- C1 (counterexample): the round-trip as claimed fails for a buffer whose
seed has bit 31 set.  `write_int64` emits the seed `2^31` as the little-endian
bytes `00 00 00 80 00 00 00 00`, but `read_int64` ORs the promoted 32-bit
value `0x80 << 24` into the 64-bit accumulator with sign extension, so the
single deserialized buffer reports seed `0xFFFFFFFF80000000`, not `2^31`,
even though deserialization reports success. -/
theorem roundtrip_seed_counterexample :
    ((deserialize (serialize [CharDna.create (2 ^ 31) 0])).map
      (fun r => (r.1, r.2.map (fun b => b.seed))))
      = some (1, [18446744071562067968])
    ∧ (18446744071562067968 : Nat) ≠ 2 ^ 31 := by
  constructor
  · decide
  · decide

/-- C1 (amended): serializing a list of buffers and deserializing the stream
back yields, in order and with success reported, one buffer per input with
the same seed, logical length, and first `length` bytes — provided the
record count and every buffer's logical length and seed are below `2^31`
(beyond that, the sign-extending and shift-truncating byte assembly of
`read_int32` / `read_int64` corrupts the read-back values). -/
theorem serialize_deserialize_roundtrip (ds : List CharDna)
    (hn : ds.length < 2 ^ 31)
    (hb : ∀ d ∈ ds, d.len < 2 ^ 31 ∧ d.seed < 2 ^ 31 ∧ ∀ i, i < d.len → d.char_data i < 256) :
    ∃ out, deserialize (serialize ds) = some (1, out) ∧ List.Forall₂ MatchesBuf out ds := by
  refine ⟨ds.map decodedBuf, deserialize_serialize ds hn (fun d hd => (hb d hd).1), ?_⟩
  exact map_decodedBuf_matches ds (fun d hd => ⟨(hb d hd).2.1, (hb d hd).2.2⟩)

/-- C1 witness: a singleton list, seed 5, one payload byte 7. -/
theorem serialize_deserialize_roundtrip_witness :
    ([(CharDna.create 5 1).append_char 7].length < 2 ^ 31
      ∧ ∀ d ∈ [(CharDna.create 5 1).append_char 7],
          d.len < 2 ^ 31 ∧ d.seed < 2 ^ 31 ∧ ∀ i, i < d.len → d.char_data i < 256)
    ∧ ∃ out, deserialize (serialize [(CharDna.create 5 1).append_char 7]) = some (1, out)
        ∧ List.Forall₂ MatchesBuf out [(CharDna.create 5 1).append_char 7] :=
  ⟨⟨by decide, by decide⟩, serialize_deserialize_roundtrip _ (by decide) (by decide)⟩

/-- The buffer built by `main` (dna.cpp:624-628) up to the 32-bit append:
seed 0, capacity 16, then `append_int(0xff04)`. -/
def scenarioBuf4 : CharDna := Int32Dna.append_int (CharDna.create 0 16) 0xff04

/-- The buffer built by `main` (dna.cpp:624-628):
additionally `append_long(0xffffffffffff11)`. -/
def scenarioBuf : CharDna := Long64Dna.append_long scenarioBuf4 0xffffffffffff11

/-- C2: the claimed `getValue`-after-`appendValue` round-trip fails, and the
code contradicts its own documentation ("Gets 4 sequential bytes of data at
the specified offset ... stored in little endian format"): after
`append_int(0xff04)` lands at the slot `align() = 0`, `int_data(0)` evaluates
`char_data(offset * 4)` with `offset` already scaled by 4 — the same byte at
offset 0 on every iteration — and assembles big-endian, returning
`0x04040404` instead of `0xff04`. -/
theorem int_data_misreads :
    Int32Dna.align (CharDna.create 0 16) = 0
    ∧ Int32Dna.int_data scenarioBuf4 0 = 0x04040404
    ∧ (0x04040404 : Nat) ≠ 0xff04 := by
  refine ⟨by decide, by decide, by decide⟩

/-- C3 (counterexample): the concrete scenario does not produce the byte
sequence the claim states.  `Long64Dna::align` rounds the length 4 up to the
8-byte boundary, so the 64-bit value starts at byte 8 (not byte 4), byte 4
stays 0, the final length is 16 (not 12), and the reconstructed buffer's
`len()` is 16. -/
theorem scenario_counterexample :
    payloadBytes scenarioBuf
      ≠ [4, 255, 0, 0, 0x11, 255, 255, 255, 255, 255, 255, 0, 0, 0, 0, 0]
    ∧ ((deserialize (serialize [scenarioBuf])).map (fun r => r.2.map CharDna.len))
      ≠ some [12] := by
  refine ⟨by decide, by decide⟩

/-- C3 (amended): appending `0xff04` through the width-4 view and then
`0xffffffffffff11` through the width-8 view to a fresh seed-0, capacity-16
buffer produces `04 FF 00 00 00 00 00 00 11 FF FF FF FF FF FF 00` (the 8-byte
value is aligned to byte offset 8), with length 16 = capacity; serializing
the single buffer and deserializing it back succeeds and reconstructs a
buffer of `len()` 16 with exactly those bytes. -/
theorem scenario_bytes_and_roundtrip :
    payloadBytes scenarioBuf
      = [4, 255, 0, 0, 0, 0, 0, 0, 0x11, 255, 255, 255, 255, 255, 255, 0]
    ∧ scenarioBuf.len = 16 ∧ scenarioBuf.capacity = 16
    ∧ ((deserialize (serialize [scenarioBuf])).map
        (fun r => (r.1, r.2.map (fun b => (b.len, payloadBytes b)))))
      = some (1, [(16, [4, 255, 0, 0, 0, 0, 0, 0, 0x11, 255, 255, 255, 255, 255, 255, 0])]) := by
  refine ⟨by decide, by decide, by decide, by decide⟩

/-- A stream holding one record whose header ends (end of file) before any
4-byte word equal to the newline sentinel appears: record count 1, payload
length 0, unit size 16, seed 0, and nothing else. -/
def truncatedHeaderStream : List Nat :=
  writeBytes 4 1 ++ (writeBytes 4 0 ++ (writeBytes 4 16 ++ writeBytes 8 0))

/-- C6: on a finite stream that ends inside a record's header before the
`0x0000000A` terminator word, `deserialize` does not return: the
`while(read_int32(&file) != '\n')` loop keeps reading after the stream has
failed, which the model marks as `none` (the C++ loop spins forever on the
unchanged, never-newline stack buffer instead of signalling failure). -/
theorem deserialize_header_eof_diverges :
    deserialize truncatedHeaderStream = none := by rfl

/-- A valid one-byte record used by failure-path inputs: seed 5, one payload
byte 7. -/
def oneByteBuf : CharDna := (CharDna.create 5 1).append_char 7

/-- A stream with two declared records: a valid one-byte record, then a
record whose unit-size word is 17 instead of 16. -/
def mismatchStream : List Nat :=
  writeBytes 4 2 ++ (serializeRec oneByteBuf ++ (writeBytes 4 0 ++ writeBytes 4 17))

/-- C4 (counterexample): on a stream whose second record has a wrong
unit-size word, `deserialize` reports failure (returns 0) but the caller's
vector still holds the record parsed before the failing one — the result is
not empty. -/
theorem deserialize_failure_counterexample :
    ((deserialize mismatchStream).map
      (fun r => (r.1, r.2.map (fun b => (b.seed, b.len, payloadBytes b)))))
      = some (0, [(5, 1, [7])])
    ∧ ([(5, 1, ([7] : List Nat))] : List (Nat × Nat × List Nat)) ≠ [] := by
  refine ⟨by decide, by decide⟩

/-- C4 (amended): if deserialization fails — a record's unit-size word
differs from 16, or the stream ends before a record's payload is fully
read — the operation reports failure (returns 0), and the records parsed
before the failing one remain delivered in the caller's vector (the result
is the partial list, not an empty one). -/
theorem deserialize_failure_keeps_records (ds : List CharDna)
    (hn : ds.length + 1 < 2 ^ 31)
    (hb : ∀ d ∈ ds, d.len < 2 ^ 31)
    (len2 u seed2 : Nat) (hu : u ≠ 16) (hu31 : u < 2 ^ 31) (hl31 : len2 < 2 ^ 31)
    (junk short : List Nat) (hshort : short.length < len2) :
    deserialize (writeBytes 4 (ds.length + 1) ++ (ds.flatMap serializeRec
        ++ (writeBytes 4 len2 ++ (writeBytes 4 u ++ junk))))
      = some (0, ds.map decodedBuf)
    ∧ deserialize (writeBytes 4 (ds.length + 1) ++ (ds.flatMap serializeRec
        ++ (writeBytes 4 len2 ++ (writeBytes 4 16 ++ (writeBytes 8 seed2
            ++ (writeBytes 4 10 ++ short))))))
      = some (0, ds.map decodedBuf) := by
  constructor
  · simp only [deserialize]
    rw [read_int32_head _ _ (writeBytes_length 4 (ds.length + 1))]
    dsimp only
    rw [asInt32_writeBytes _ (by omega)]
    have hc := deserializeLoop_consume ds hb 1
      (writeBytes 4 len2 ++ (writeBytes 4 u ++ junk)) []
    simp only [List.nil_append] at hc
    rw [hc]
    show deserializeLoop (0 + 1) _ _ = _
    simp only [deserializeLoop]
    rw [read_int32_head _ _ (writeBytes_length 4 len2)]
    dsimp only
    rw [read_int32_head _ _ (writeBytes_length 4 u)]
    dsimp only
    rw [asInt32_writeBytes u hu31]
    simp [hu]
  · simp only [deserialize]
    rw [read_int32_head _ _ (writeBytes_length 4 (ds.length + 1))]
    dsimp only
    rw [asInt32_writeBytes _ (by omega)]
    have hc := deserializeLoop_consume ds hb 1
      (writeBytes 4 len2 ++ (writeBytes 4 16 ++ (writeBytes 8 seed2
        ++ (writeBytes 4 10 ++ short)))) []
    simp only [List.nil_append] at hc
    rw [hc]
    show deserializeLoop (0 + 1) _ _ = _
    simp only [deserializeLoop]
    rw [read_int32_head _ _ (writeBytes_length 4 len2)]
    dsimp only
    rw [read_int32_head _ _ (writeBytes_length 4 16)]
    dsimp only
    rw [asInt32_writeBytes 16 (by norm_num), asInt32_writeBytes len2 hl31]
    simp only [ne_eq, not_true_eq_false, if_false, ite_false]
    rw [read_int64_head _ _ (writeBytes_length 8 seed2)]
    dsimp only
    rw [skipHeader_cons_eq _ _ (writeBytes_length 4 10) (asInt32_writeBytes 10 (by norm_num))]
    dsimp only
    have hr : readN ⟨short, false⟩ len2
        = (short ++ List.replicate (len2 - short.length) 0, ⟨[], true⟩) := by
      simp only [readN]
      rw [if_neg (by simp), if_neg (by omega)]
    rw [hr]
    simp

/-- C4 witness: one good record followed by a bad-unit-size record, and one
good record followed by a truncated payload. -/
theorem deserialize_failure_keeps_records_witness :
    ([oneByteBuf].length + 1 < 2 ^ 31 ∧ (∀ d ∈ [oneByteBuf], d.len < 2 ^ 31)
      ∧ (17 : Nat) ≠ 16 ∧ (17 : Nat) < 2 ^ 31 ∧ (3 : Nat) < 2 ^ 31
      ∧ ([9] : List Nat).length < 3)
    ∧ (deserialize (writeBytes 4 ([oneByteBuf].length + 1) ++ ([oneByteBuf].flatMap serializeRec
        ++ (writeBytes 4 3 ++ (writeBytes 4 17 ++ [2, 2]))))
        = some (0, [oneByteBuf].map decodedBuf)
      ∧ deserialize (writeBytes 4 ([oneByteBuf].length + 1) ++ ([oneByteBuf].flatMap serializeRec
          ++ (writeBytes 4 3 ++ (writeBytes 4 16 ++ (writeBytes 8 0
              ++ (writeBytes 4 10 ++ [9]))))))
        = some (0, [oneByteBuf].map decodedBuf)) :=
  ⟨⟨by decide, by decide, by decide, by decide, by decide, by decide⟩,
    deserialize_failure_keeps_records [oneByteBuf] (by decide) (by decide)
      3 17 0 (by decide) (by decide) (by decide) [2, 2] [9] (by decide)⟩

/-- Little-endian byte encoding as the spec describes it: byte `i` of the
`w`-byte field is `v / 256^i % 256`. -/
def leBytes (w v : Nat) : List Nat :=
  (List.range w).map fun i => v / 256 ^ i % 256

/-- The record layout as the spec states it: 4-byte LE payload length,
4-byte LE unit-size constant 16, 8-byte LE seed, 4-byte LE format-version
tag 1, 4-byte LE terminator `0x0000000A`, then exactly `length` payload
bytes. -/
def specRecordLayout (d : CharDna) : List Nat :=
  leBytes 4 d.len ++ leBytes 4 16 ++ leBytes 8 d.seed
    ++ leBytes 4 1 ++ leBytes 4 10 ++ payloadBytes d

/-- The full stream layout as the spec states it. -/
def specSerialized (ds : List CharDna) : List Nat :=
  leBytes 4 ds.length ++ ds.flatMap specRecordLayout

theorem writeBytes_eq_leBytes (n v : Nat) : writeBytes n v = leBytes n v := by
  induction n generalizing v with
  | zero => rfl
  | succ n ih =>
    have hdiv : ∀ i, v / 256 / 256 ^ i = v / 256 ^ (i + 1) := by
      intro i
      rw [Nat.div_div_eq_div_mul, pow_succ']
    simp only [writeBytes, leBytes, List.range_succ_eq_map, List.map_cons, List.map_map]
    congr 1
    · simp
    · rw [ih (v / 256)]
      simp only [leBytes]
      apply List.map_congr_left
      intro i _
      simp [Function.comp, hdiv i]

theorem flatMap_serializeRec_eq (ds : List CharDna) :
    ds.flatMap serializeRec = ds.flatMap specRecordLayout := by
  induction ds with
  | nil => rfl
  | cons d tl ih =>
    simp only [List.flatMap_cons]
    rw [ih]
    simp [serializeRec, specRecordLayout, writeBytes_eq_leBytes, CharDna.len, CharDna.seed]

/-- C5: `serialize` writes the 4-byte little-endian record count and then,
for each buffer in order, the 4-byte LE payload length (the logical length),
the 4-byte LE unit-size constant 16, the 8-byte LE seed, the 4-byte LE
format-version tag 1, the 4-byte LE terminator `0x0000000A`, and exactly
`length` payload bytes (not `capacity`).  The bounds scope the claim to
counts and lengths representable in the 4-byte fields and seeds in the
8-byte field. -/
theorem serialize_layout (ds : List CharDna)
    (hn : ds.length < 2 ^ 32)
    (hb : ∀ d ∈ ds, d.len < 2 ^ 32 ∧ d.seed < 2 ^ 64) :
    serialize ds = specSerialized ds
    ∧ ∀ d ∈ ds, (payloadBytes d).length = d.len := by
  constructor
  · show writeBytes 4 ds.length ++ ds.flatMap serializeRec = specSerialized ds
    rw [flatMap_serializeRec_eq ds, writeBytes_eq_leBytes]
    rfl
  · intro d _
    exact payloadBytes_length d

/-- C5 witness: a two-buffer list. -/
theorem serialize_layout_witness :
    ([oneByteBuf, CharDna.create 9 4].length < 2 ^ 32
      ∧ ∀ d ∈ [oneByteBuf, CharDna.create 9 4], d.len < 2 ^ 32 ∧ d.seed < 2 ^ 64)
    ∧ serialize [oneByteBuf, CharDna.create 9 4]
        = specSerialized [oneByteBuf, CharDna.create 9 4]
    ∧ ∀ d ∈ [oneByteBuf, CharDna.create 9 4], (payloadBytes d).length = d.len :=
  ⟨⟨by decide, by decide⟩,
    serialize_layout [oneByteBuf, CharDna.create 9 4] (by decide) (by decide)⟩

/-- C7: every buffer reachable through construction, `set_char`, and
`append_char` (growth happens inside these) keeps all bytes at offsets in
`[length, capacity)` zero. -/
theorem zero_fill_invariant (d : CharDna) (h : Reachable d) :
    ∀ i, d.len ≤ i → i < d.capacity → d.char_data i = 0 :=
  fun i hi hi' => (BufInv.reachable d h).2 i hi hi'

/-- C7 witness: a fresh capacity-8 buffer after one `set_char` at offset 2
(length 3), checked at offset 5. -/
theorem zero_fill_invariant_witness :
    Reachable ((CharDna.create 3 8).set_char 2 7)
    ∧ ((CharDna.create 3 8).set_char 2 7).char_data 5 = 0 :=
  ⟨Reachable.set_char _ 2 7 (Reachable.create 3 8),
    zero_fill_invariant _ (Reachable.set_char _ 2 7 (Reachable.create 3 8)) 5
      (by decide) (by decide)⟩

theorem CharDna.set_char_len_stable (d : CharDna) (offset v : Nat)
    (h : (if d.m_ptr ≤ offset then offset + 1 else d.m_ptr) ≤ d.m_len) :
    (d.set_char offset v).m_len = d.m_len := by
  simp only [CharDna.set_char, CharDna.realloc]
  split_ifs <;> simp_all <;> omega

/-- C8: capacity never decreases across any sequence of `set_char` /
`append_char` operations, and a growth reallocation never truncates: after a
`set_char` that grew the buffer, the first pre-growth-length bytes are
unchanged and the new capacity is at least the new logical length. -/
theorem capacity_monotone_and_growth_preserves :
    (∀ (d : CharDna) (ops : List BufOp), d.capacity ≤ (applyOps d ops).capacity)
    ∧ ∀ (d : CharDna) (offset v : Nat), d.len ≤ d.capacity →
        d.capacity ≤ (d.set_char offset v).capacity
        ∧ (d.set_char offset v).len ≤ (d.set_char offset v).capacity
        ∧ (d.capacity < (d.set_char offset v).capacity →
            ∀ i, i < d.len → (d.set_char offset v).char_data i = d.char_data i) := by
  constructor
  · exact applyOps_capacity_mono
  · intro d offset v h
    simp only [CharDna.len, CharDna.capacity, CharDna.char_data] at h ⊢
    refine ⟨CharDna.set_char_len_mono d offset v,
      CharDna.set_char_ptr_le_len d offset v h, ?_⟩
    intro hgrow i hi
    rcases Nat.lt_or_ge offset d.m_ptr with hlt | hge
    · exfalso
      have hstable := CharDna.set_char_len_stable d offset v
        (by rw [if_neg (by omega)]; exact h)
      omega
    · exact CharDna.set_char_data_ne d offset v i (by omega) (Or.inl hi)

/-- C8 witness: a capacity-2 buffer grown by a `set_char` at offset 5. -/
theorem capacity_monotone_and_growth_preserves_witness :
    ((CharDna.create 0 2).append_char 9).len ≤ ((CharDna.create 0 2).append_char 9).capacity
    ∧ (CharDna.create 0 2).capacity
        ≤ (applyOps (CharDna.create 0 2) [BufOp.appendB 9]).capacity
    ∧ (((CharDna.create 0 2).append_char 9).capacity
        ≤ (((CharDna.create 0 2).append_char 9).set_char 5 1).capacity
      ∧ (((CharDna.create 0 2).append_char 9).set_char 5 1).len
          ≤ (((CharDna.create 0 2).append_char 9).set_char 5 1).capacity
      ∧ (((CharDna.create 0 2).append_char 9).capacity
            < (((CharDna.create 0 2).append_char 9).set_char 5 1).capacity →
          ∀ i, i < ((CharDna.create 0 2).append_char 9).len →
            (((CharDna.create 0 2).append_char 9).set_char 5 1).char_data i
              = ((CharDna.create 0 2).append_char 9).char_data i)) :=
  ⟨by decide,
    capacity_monotone_and_growth_preserves.1 (CharDna.create 0 2) [BufOp.appendB 9],
    capacity_monotone_and_growth_preserves.2 ((CharDna.create 0 2).append_char 9) 5 1
      (by decide)⟩

/-- C9: `append_char v` is exactly `set_char(len(), v)`, and appending the
byte values `v0..v(n-1)` to a fresh buffer gives a buffer of length `n`
whose byte `i` reads back as `vi`. -/
theorem append_byte_roundtrip :
    (∀ (d : CharDna) (v : Nat), d.append_char v = d.set_char d.len v)
    ∧ ∀ (seed cap : Nat) (vs : List Nat), (∀ v ∈ vs, v < 256) →
        (appendAll (CharDna.create seed cap) vs).len = vs.length
        ∧ ∀ i, (hi : i < vs.length) →
            (appendAll (CharDna.create seed cap) vs).char_data i = vs.get ⟨i, hi⟩ := by
  constructor
  · intro d v
    rfl
  · intro seed cap vs hv
    obtain ⟨h1, _, h3⟩ := appendAll_spec vs (CharDna.create seed cap)
    constructor
    · show (appendAll (CharDna.create seed cap) vs).m_ptr = vs.length
      rw [h1]
      simp [CharDna.create]
    · intro i hi
      show (appendAll (CharDna.create seed cap) vs).data i = vs.get ⟨i, hi⟩
      have hz : (CharDna.create seed cap).m_ptr + i = i := by
        simp [CharDna.create]
      have := h3 i hi
      rw [hz] at this
      rw [this, Nat.mod_eq_of_lt (hv _ (vs.get_mem i hi))]

/-- C9 witness: appending `[7, 200]` to a fresh capacity-1 buffer (the second
append grows the buffer). -/
theorem append_byte_roundtrip_witness :
    (∀ v ∈ [7, 200], v < 256)
    ∧ (appendAll (CharDna.create 0 1) [7, 200]).len = 2
    ∧ (appendAll (CharDna.create 0 1) [7, 200]).char_data 1 = 200 := by
  refine ⟨by decide, (append_byte_roundtrip.2 0 1 [7, 200] (by decide)).1, ?_⟩
  have h := (append_byte_roundtrip.2 0 1 [7, 200] (by decide)).2 1 (by decide)
  simpa using h

/-- C10: immediately after `append_int` the logical length is a multiple of
4 (namely `4 * align() + 4`) and the four written bytes, little-endian
bytes of the value, end exactly at the new length; similarly `append_long`
leaves a length that is a multiple of 8 with the eight written bytes ending
at the new length. -/
theorem append_value_alignment (d : CharDna) (v : Nat) :
    (Int32Dna.append_int d v).len % 4 = 0
    ∧ (Int32Dna.append_int d v).len = 4 * Int32Dna.align d + 4
    ∧ (∀ i, i < 4 →
        (Int32Dna.append_int d v).char_data ((Int32Dna.append_int d v).len - 4 + i)
          = v / 2 ^ (8 * i) % 256)
    ∧ (Long64Dna.append_long d v).len % 8 = 0
    ∧ (Long64Dna.append_long d v).len = 8 * Long64Dna.align d + 8
    ∧ (∀ i, i < 8 →
        (Long64Dna.append_long d v).char_data ((Long64Dna.append_long d v).len - 8 + i)
          = v / 2 ^ (8 * i) % 256) := by
  obtain ⟨h1, h2⟩ := Int32Dna.set_int_spec d (Int32Dna.align d) v
    (by have := Int32Dna.align32_ge d; omega)
  obtain ⟨h1', h2'⟩ := Long64Dna.set_long_spec d (Long64Dna.align d) v
    (by have := Long64Dna.align64_ge d; omega)
  have hlen : (Int32Dna.append_int d v).len = Int32Dna.align d * 4 + 4 := h1
  have hlen' : (Long64Dna.append_long d v).len = Long64Dna.align d * 8 + 8 := h1'
  refine ⟨by omega, by omega, ?_, by omega, by omega, ?_⟩
  · intro i hi
    have hidx : (Int32Dna.append_int d v).len - 4 + i = Int32Dna.align d * 4 + i := by
      omega
    rw [hidx]
    exact h2 i hi
  · intro i hi
    have hidx : (Long64Dna.append_long d v).len - 8 + i = Long64Dna.align d * 8 + i := by
      omega
    rw [hidx]
    exact h2' i hi

/-- C10 witness: appending 300 through the width-4 view of a fresh buffer
and `2^40 + 2` through the width-8 view of a length-4 buffer. -/
theorem append_value_alignment_witness :
    (Int32Dna.append_int (CharDna.create 0 4) 300).len % 4 = 0
    ∧ (Int32Dna.append_int (CharDna.create 0 4) 300).char_data 1 = 1
    ∧ (Long64Dna.append_long scenarioBuf4 (2 ^ 40 + 2)).len = 16 := by
  refine ⟨(append_value_alignment (CharDna.create 0 4) 300).1, ?_, ?_⟩
  · have h := (append_value_alignment (CharDna.create 0 4) 300).2.2.1 1 (by norm_num)
    rw [show (Int32Dna.append_int (CharDna.create 0 4) 300).len - 4 + 1 = 1 from by decide] at h
    rw [h]
    decide
  · have h := (append_value_alignment scenarioBuf4 (2 ^ 40 + 2)).2.2.2.2.1
    rw [h]
    decide
